import Mathlib

/-!
# Verification of the ROMC MVP notification scheduling engine

Shallow embedding of the per-user notification scheduling engine of the
ROMC MVP Discord bot (main source file: the revision containing
`setupNotifications`, `clearAllActiveJobs`, `applyAutoPreferences`,
`sendNotificationToUser`, the `stop` command handler and the interactive
select-menu / auto-apply button handlers).

Modelling conventions:
* The on-disk preference store and the in-memory mapping are conflated into
  one association list `List (String × UserPref)` (the engine performs a
  single `loadUserPreferences()` at the start of a pass and a single
  `saveUserPreferences(prefs)` at the end, so the two coincide at those
  points).
* The process-wide job registry `activeJobs` (a JS object keyed by the
  string `` `${userId}_${timeValue}_early` ``) is modelled as an
  association list `List (JobId × Job)` with JS-object assignment
  semantics (`setJob` replaces the value of an existing key in place and
  appends new keys).  `JobId` is the structured form of the key string;
  for the sixteen catalog time values (each of the fixed shape "HH:MM")
  the string key is recovered injectively from the structure.
* A `node-cron` scheduled task is modelled by `Job`: the cron expression
  and timezone it was created with, the closure data of its callback
  (user id and time label), whether it is running (`cron.schedule` with
  `scheduled: true` starts it; `stop()` halts it), and whether its
  `cancel()` raises when invoked (`cancelThrows`, used to model
  cancellation failures).
-/

/-- One entry of the static 16-slot catalog `NOTIFICATION_TIMES`. -/
structure TimeInfo where
  label : String
  value : String
  earlyWarningCron : String
  deriving DecidableEq, Repr

/-- The static catalog `NOTIFICATION_TIMES`, transcribed from the source. -/
def NOTIFICATION_TIMES : List TimeInfo := [
  ⟨"00:00", "00:00", "55 23 * * *"⟩,
  ⟨"01:30", "01:30", "25 1 * * *"⟩,
  ⟨"03:00", "03:00", "55 2 * * *"⟩,
  ⟨"04:30", "04:30", "25 4 * * *"⟩,
  ⟨"06:00", "06:00", "55 5 * * *"⟩,
  ⟨"07:30", "07:30", "25 7 * * *"⟩,
  ⟨"09:00", "09:00", "55 8 * * *"⟩,
  ⟨"10:30", "10:30", "25 10 * * *"⟩,
  ⟨"12:00", "12:00", "55 11 * * *"⟩,
  ⟨"13:30", "13:30", "25 13 * * *"⟩,
  ⟨"15:00", "15:00", "55 14 * * *"⟩,
  ⟨"16:30", "16:30", "25 16 * * *"⟩,
  ⟨"18:00", "18:00", "55 17 * * *"⟩,
  ⟨"19:30", "19:30", "25 19 * * *"⟩,
  ⟨"21:00", "21:00", "55 20 * * *"⟩,
  ⟨"22:30", "22:30", "25 22 * * *"⟩]

/-- `DEFAULT_TIMEZONE` (`process.env.DEFAULT_TIMEZONE || 'Asia/Bangkok'`);
the deployment default is modelled by its fallback value. -/
def DEFAULT_TIMEZONE : String := "Asia/Bangkok"

/-- `NOTIFICATION_TIMES.find(t => t.value === timeValue)`. -/
def findTime (timeValue : String) : Option TimeInfo :=
  NOTIFICATION_TIMES.find? (fun t => t.value == timeValue)

/-- A stored time value names one of the sixteen catalog slots. -/
def validTime (timeValue : String) : Bool :=
  (findTime timeValue).isSome

/-- Structured form of the registry key string
`` `${userId}_${timeValue}_early` ``.  For catalog time values (fixed
shape "HH:MM", no underscore, followed by the literal suffix "_early")
the string determines the structure uniquely, so the structured form is a
faithful rendering of the composite key. -/
structure JobId where
  userId : String
  timeValue : String
  kind : String
  deriving DecidableEq, Repr

/-- The key under which `setupNotifications` registers a user's early
warning job: `` `${userId}_${timeValue}_early` ``. -/
def earlyJobId (userId timeValue : String) : JobId :=
  ⟨userId, timeValue, "early"⟩

/-- One user's preference record, as created by `initUserPreferences` plus
the dynamically added optional field `tempTimes` (staging area of the
interactive select menu).  `timezone` is `Option`al because legacy stored
records may lack the field (the code guards every read with
`prefs.timezone || DEFAULT_TIMEZONE`); `scheduledJobs` holds the registry
keys of this user's created jobs. -/
structure UserPref where
  times : List String
  autoApply : Bool
  paused : Bool
  scheduledJobs : List JobId
  lastSetupMessageId : Option String
  timezone : Option String
  tempTimes : Option (List String)
  deriving DecidableEq, Repr

/-- The defaults installed by `initUserPreferences` for an unknown user. -/
def initUserPreferences : UserPref :=
  { times := []
    autoApply := false
    paused := false
    scheduledJobs := []
    lastSetupMessageId := none
    timezone := some DEFAULT_TIMEZONE
    tempTimes := none }

/-- `prefs.timezone || DEFAULT_TIMEZONE`. -/
def userTz (p : UserPref) : String :=
  p.timezone.getD DEFAULT_TIMEZONE

/-- A `node-cron` task handle as the engine observes it.
Modelled from the spec: the recurring-timer primitive is the external
`node-cron` library (`schedule(rule, {timezone}) -> Handle{stop(), start(),
cancel()}`, §6 of the spec); a handle records the rule and timezone it was
created with, the data its callback closes over, whether it is currently
started, and whether invoking its `cancel()` raises (`cancelThrows`,
arbitrary in claims about cancellation resilience). -/
structure Job where
  cronExpr : String
  timezone : String
  cbUserId : String
  cbTimeLabel : String
  running : Bool
  cancelThrows : Bool
  deriving DecidableEq, Repr

/-- The job built for user `userId` with record `p` and catalog entry
`ti` inside `setupNotifications`: `cron.schedule(ti.earlyWarningCron,
callback, { scheduled: true, timezone: userTimezone })`, followed by
`job.stop()` when `p.paused` (created then stopped, never skipped). -/
def mkEarlyJob (userId : String) (p : UserPref) (ti : TimeInfo) : Job :=
  { cronExpr := ti.earlyWarningCron
    timezone := userTz p
    cbUserId := userId
    cbTimeLabel := ti.label
    running := !p.paused
    cancelThrows := false }

/-- The persisted preference mapping (JS object keyed by user id). -/
abbrev PrefMap := List (String × UserPref)

/-- The process-wide job registry `activeJobs` (JS object keyed by job id). -/
abbrev Registry := List (JobId × Job)

/-- Whole engine state: job registry plus preference store. -/
structure SysState where
  activeJobs : Registry
  prefs : PrefMap
  deriving DecidableEq, Repr

/-- Property read `obj[key]` on a JS object modelled as an assoc list. -/
def lookupKey {β : Type} (l : List (String × β)) (k : String) : Option β :=
  (l.find? (fun e => e.1 == k)).map (·.2)

/-- Registry read `activeJobs[jobId]`. -/
def lookupJob (reg : Registry) (k : JobId) : Option Job :=
  (reg.find? (fun e => decide (e.1 = k))).map (·.2)

/-- Property write `obj[key] = v` on a JS object: replaces the value at an
existing key in place, appends a fresh key at the end. -/
def setJob : Registry → JobId → Job → Registry
  | [], k, j => [(k, j)]
  | e :: rest, k, j => if e.1 = k then (k, j) :: rest else e :: setJob rest k j

/-- Property write `prefs[userId] = p` (existing key). -/
def setPref (prefs : PrefMap) (userId : String) (p : UserPref) : PrefMap :=
  prefs.map (fun e => (e.1, if e.1 == userId then p else e.2))

/-- `delete obj[key]` on the registry. -/
def deleteJob (reg : Registry) (k : JobId) : Registry :=
  reg.filter (fun e => decide (e.1 ≠ k))

/-- Outcome of one cancellation attempt inside `clearAllActiveJobs`:
either the handle was cancelled, or its `cancel()` threw and the error
was caught and logged by the per-handle `try`/`catch`. -/
inductive CancelOutcome
  | cancelled
  | failed
  deriving DecidableEq, Repr

/-- The per-handle failure boundary of `clearAllActiveJobs`: `try {
job.cancel() } catch (err) { console.error(...) }`.  A raising handle
produces a logged `failed` outcome instead of propagating. -/
def attemptCancel (j : Job) : CancelOutcome :=
  match (if j.cancelThrows then Except.error "cancel threw" else Except.ok ()) with
  | Except.ok _ => CancelOutcome.cancelled
  | Except.error _ => CancelOutcome.failed

/-- `clearAllActiveJobs()`: attempts to cancel every handle in the
registry (each attempt isolated in its own `try`/`catch`), then removes
every key (`Object.keys(activeJobs).forEach(key => delete
activeJobs[key])`).  Returns the per-handle outcome log together with the
resulting (empty) registry. -/
def clearAllActiveJobs (reg : Registry) : List (JobId × CancelOutcome) × Registry :=
  (reg.map (fun e => (e.1, attemptCancel e.2)), [])

/-- The registry entries `setupNotifications` creates for one user:
`prefs.times.forEach(timeValue => ...)` with the unknown-time guard
(`if (!timeInfo) return;`) and the `if (!prefs.times || !prefs.times.length)`
skip. -/
def jobsForUser (userId : String) (p : UserPref) : List (JobId × Job) :=
  if p.times.isEmpty then []
  else p.times.filterMap (fun timeValue =>
    match findTime timeValue with
    | none => none
    | some ti => some (earlyJobId userId timeValue, mkEarlyJob userId p ti))

/-- All registry entries created by one `setupNotifications` pass, in
iteration order over `Object.entries(userPrefs)`. -/
def registryEntries : PrefMap → List (JobId × Job)
  | [] => []
  | e :: rest => jobsForUser e.1 e.2 ++ registryEntries rest

/-- Folding the created entries into the registry with JS-object
assignment `activeJobs[earlyJobId] = earlyWarningJob`. -/
def buildRegistry (start : Registry) (entries : List (JobId × Job)) : Registry :=
  entries.foldl (fun reg e => setJob reg e.1 e.2) start

/-- The per-user record mutation of `setupNotifications`: users with no
selected times are skipped (`return`, no mutation at all); every other
user gets `prefs.scheduledJobs` reset and rebuilt to the ids of the jobs
created for them. -/
def rebuildUser (userId : String) (p : UserPref) : UserPref :=
  if p.times.isEmpty then p
  else { p with scheduledJobs := (jobsForUser userId p).map (fun kj => kj.1) }

/-- The preference mapping as re-persisted by the final
`saveUserPreferences(userPrefs)` of a `setupNotifications` pass. -/
def rebuiltPrefs (prefs : PrefMap) : PrefMap :=
  prefs.map (fun e => (e.1, rebuildUser e.1 e.2))

/-- `setupNotifications()`: clear the whole registry via
`clearAllActiveJobs()`, perform the single `loadUserPreferences()`, create
one early-warning job per (user, known time value) — stopped immediately
when the user is paused — rebuild each processed user's `scheduledJobs`,
and persist the mutated mapping with the single final
`saveUserPreferences(userPrefs)`. -/
def setupNotifications (st : SysState) : SysState :=
  let cleared := (clearAllActiveJobs st.activeJobs).2
  let userPrefs := st.prefs
  { activeJobs := buildRegistry cleared (registryEntries userPrefs)
    prefs := rebuiltPrefs userPrefs }

/-- The message actually delivered to the channel by
`sendNotificationToUser` (the channel fetch, dayjs display formatting and
Discord send are external; the delivery is identified by the mentioned
user and the time label the callback closed over). -/
structure SentMessage where
  userId : String
  timeLabel : String
  deriving DecidableEq, Repr

/-- `sendNotificationToUser(userId, timeLabel)`: reloads the preferences
fresh and exits before any channel interaction when
`userPrefs[userId]?.paused` (optional chaining: a missing record reads as
not paused); otherwise delivers. `none` models the early `return` with no
delivery. -/
def sendNotificationToUser (store : PrefMap) (userId timeLabel : String) : Option SentMessage :=
  match lookupKey store userId with
  | some p => if p.paused then none else some ⟨userId, timeLabel⟩
  | none => some ⟨userId, timeLabel⟩

/-- Split a character list on spaces (the field structure of a cron
expression). -/
def splitOnSpace : List Char → List (List Char)
  | [] => [[]]
  | c :: rest =>
    if c = ' ' then [] :: splitOnSpace rest
    else
      match splitOnSpace rest with
      | [] => [[c]]
      | f :: fs => (c :: f) :: fs

/-- Numeric value of a decimal digit character. -/
def digitVal (c : Char) : Option Nat :=
  if c = '0' then some 0 else if c = '1' then some 1 else if c = '2' then some 2
  else if c = '3' then some 3 else if c = '4' then some 4 else if c = '5' then some 5
  else if c = '6' then some 6 else if c = '7' then some 7 else if c = '8' then some 8
  else if c = '9' then some 9 else none

/-- Accumulating decimal parse of a digit string. -/
def parseNatAux : List Char → Nat → Option Nat
  | [], acc => some acc
  | c :: rest, acc =>
    match digitVal c with
    | some d => parseNatAux rest (10 * acc + d)
    | none => none

/-- Parse a non-empty all-digit character list as a natural number. -/
def parseNatChars (cs : List Char) : Option Nat :=
  match cs with
  | [] => none
  | _ => parseNatAux cs 0

/-- Minute and hour fields of a 5-field cron expression
(`minute hour day month weekday`). -/
def cronMinuteHour (expr : String) : Option (Nat × Nat) :=
  match splitOnSpace expr.data with
  | [m, h, _, _, _] =>
    match parseNatChars m, parseNatChars h with
    | some mv, some hv => some (mv, hv)
    | _, _ => none
  | _ => none

/-- Whether a scheduled task triggers at wall-clock `hour:minute` read in
timezone `tz`.
Modelled from the spec: the recurring-timer primitive (external
`node-cron`, spec §6) fires a running task when the wall clock of the
timezone given in its options matches the rule's minute/hour fields —
"the recurrence's hour:minute is interpreted directly as wall-clock time
in the user's timezone" (spec §4.4). -/
def firesAtWallClock (j : Job) (tz : String) (hour minute : Nat) : Bool :=
  j.running && j.timezone == tz && cronMinuteHour j.cronExpr == some (minute, hour)

/-- One `job.cancel()` call outside any per-handle failure boundary (the
`stop` command handler): raises when the handle's `cancel` throws. -/
def cancelRun (j : Job) : Except String Unit :=
  if j.cancelThrows then Except.error "cancel threw" else Except.ok ()

/-- The loop of the `stop` command handler over
`userPrefs[userId].scheduledJobs`: for each listed id, if the registry
holds a handle there (the `job && typeof job.cancel === 'function'`
guard; handles satisfy the spec §6 contract, so `cancel` is a function),
cancel it — uncaught, so a throw aborts the remaining loop and the save —
and `delete activeJobs[jobId]`. -/
def stopLoop : Registry → List JobId → Except String Registry
  | reg, [] => Except.ok reg
  | reg, jobId :: rest =>
    match lookupJob reg jobId with
    | some j =>
      match cancelRun j with
      | Except.ok _ => stopLoop (deleteJob reg jobId) rest
      | Except.error e => Except.error e
    | none => stopLoop reg rest

/-- The `!romc-mvp stop` command handler: for an unknown user it only
installs the default record; for a known user it clears `times`,
`autoApply` and `paused`, cancels and deletes every registry handle
listed in `scheduledJobs`, empties `scheduledJobs`, and saves. -/
def stopCommand (st : SysState) (userId : String) : Except String SysState :=
  match lookupKey st.prefs userId with
  | none =>
    Except.ok { st with prefs := st.prefs ++ [(userId, initUserPreferences)] }
  | some p =>
    match stopLoop st.activeJobs p.scheduledJobs with
    | Except.error e => Except.error e
    | Except.ok reg' =>
      Except.ok
        { activeJobs := reg'
          prefs := setPref st.prefs userId
            { p with times := [], autoApply := false, paused := false, scheduledJobs := [] } }

/-- The `notification_times` select-menu handler (single-menu path, which
is the live one for the 16-entry catalog): stages the chosen values in
`tempTimes` and saves — it neither touches `times` nor the registry, and
sets up no notifications ("don't set up notifications yet"). -/
def selectTimesHandler (st : SysState) (userId : String) (selected : List String) : SysState :=
  match lookupKey st.prefs userId with
  | some p =>
    { st with prefs := setPref st.prefs userId { p with tempTimes := some selected } }
  | none =>
    { st with prefs := st.prefs ++ [(userId, { initUserPreferences with tempTimes := some selected })] }

/-- Observable outcome of an `auto_apply_yes` / `auto_apply_no` button
press: an ephemeral error reply, or a committed selection. -/
inductive ButtonOutcome
  | rejected
  | committed
  deriving DecidableEq, Repr

/-- The `auto_apply_yes` / `auto_apply_no` button handler: without staged
`tempTimes` (absent or empty) it replies with an error and returns before
any save, leaving the persisted state untouched (the in-memory
`initUserPreferences` of an unknown user is discarded unsaved); otherwise
it moves `tempTimes` into `times`, records the auto-apply choice, deletes
`tempTimes` and saves (the follow-up reconcile goes through the debounced
`setupNotificationsDebounced`, which runs separately). -/
def autoApplyHandler (st : SysState) (userId : String) (autoApply : Bool) :
    SysState × ButtonOutcome :=
  let p := (lookupKey st.prefs userId).getD initUserPreferences
  match p.tempTimes with
  | none => (st, ButtonOutcome.rejected)
  | some ts =>
    if ts.isEmpty then (st, ButtonOutcome.rejected)
    else
      let p' := { p with times := ts, autoApply := autoApply, tempTimes := none }
      let prefs' :=
        match lookupKey st.prefs userId with
        | some _ => setPref st.prefs userId p'
        | none => st.prefs ++ [(userId, p')]
      ({ st with prefs := prefs' }, ButtonOutcome.committed)

/-- Per-record action of the daily reset: a user with `autoApply` and
non-empty `times` keeps their record; any other user with non-empty
`times` has it cleared, their `paused` state explicitly saved in
`wasPaused` and restored around the mutation. -/
def dailyResetUser (p : UserPref) : UserPref :=
  if p.autoApply && !p.times.isEmpty then p
  else if !p.times.isEmpty then
    let wasPaused := p.paused
    { p with times := [], paused := wasPaused }
  else p

/-- `applyAutoPreferences()` (daily reset, invoked by the 8:00 AM cron). -/
def applyAutoPreferences (prefs : PrefMap) : PrefMap :=
  prefs.map (fun e => (e.1, dailyResetUser e.2))

/-- The keys currently present in the registry. -/
def registryKeys (reg : Registry) : List JobId :=
  reg.map (fun e => e.1)

/-- The keys of registry entries whose task is running (live, non-paused
timers). -/
def liveKeys (reg : Registry) : List JobId :=
  (reg.filter (fun e => e.2.running)).map (fun e => e.1)

/-- The registry keys belonging to one user. -/
def userKeys (userId : String) (reg : Registry) : List JobId :=
  (registryKeys reg).filter (fun k => k.userId == userId)

/-- Number of registry entries stored under one key. -/
def countKey (reg : Registry) (k : JobId) : Nat :=
  (reg.filter (fun e => decide (e.1 = k))).length

/-- Number of registry entries belonging to one user. -/
def countUser (reg : Registry) (userId : String) : Nat :=
  (reg.filter (fun e => e.1.userId == userId)).length

/-! ## Registry lemmas -/

theorem lookupJob_cons (e : JobId × Job) (reg : Registry) (k : JobId) :
    lookupJob (e :: reg) k = if e.1 = k then some e.2 else lookupJob reg k := by
  by_cases h : e.1 = k <;> simp [lookupJob, List.find?_cons, h]

theorem lookupJob_mem {reg : Registry} {k : JobId} {j : Job}
    (h : lookupJob reg k = some j) : (k, j) ∈ reg := by
  induction reg with
  | nil => simp [lookupJob] at h
  | cons e rest ih =>
    obtain ⟨k', j'⟩ := e
    rw [lookupJob_cons] at h
    by_cases he : k' = k
    · simp only [he, if_pos] at h
      simp only [Option.some.injEq] at h
      subst he
      subst h
      exact List.mem_cons_self _ _
    · simp only [if_neg he] at h
      exact List.mem_cons_of_mem _ (ih h)

theorem lookupJob_setJob_self (reg : Registry) (k : JobId) (j : Job) :
    lookupJob (setJob reg k j) k = some j := by
  induction reg with
  | nil => simp [setJob, lookupJob, List.find?_cons]
  | cons e rest ih =>
    by_cases he : e.1 = k
    · simp [setJob, he, lookupJob_cons]
    · simp [setJob, he, lookupJob_cons, ih]

theorem lookupJob_setJob_ne (reg : Registry) (k k' : JobId) (j : Job) (h : k' ≠ k) :
    lookupJob (setJob reg k j) k' = lookupJob reg k' := by
  induction reg with
  | nil => simp [setJob, lookupJob, List.find?_cons, Ne.symm h]
  | cons e rest ih =>
    by_cases he : e.1 = k
    · subst he
      simp [setJob, lookupJob_cons, Ne.symm h]
    · simp [setJob, he, lookupJob_cons, ih]

theorem mem_setJob {reg : Registry} {k : JobId} {j : Job} {e : JobId × Job}
    (h : e ∈ setJob reg k j) : e ∈ reg ∨ e = (k, j) := by
  induction reg with
  | nil => simp [setJob] at h; simp [h]
  | cons hd rest ih =>
    by_cases hh : hd.1 = k
    · simp only [setJob, if_pos hh] at h
      rcases List.mem_cons.mp h with h1 | h1
      · right; exact h1
      · left; exact List.mem_cons_of_mem _ h1
    · simp only [setJob, if_neg hh] at h
      rcases List.mem_cons.mp h with h1 | h1
      · left; simp [h1]
      · rcases ih h1 with h2 | h2
        · left; exact List.mem_cons_of_mem _ h2
        · right; exact h2

theorem keys_setJob_mem (reg : Registry) (k k' : JobId) (j : Job) :
    k' ∈ registryKeys (setJob reg k j) ↔ k' ∈ registryKeys reg ∨ k' = k := by
  induction reg with
  | nil => simp [setJob, registryKeys]
  | cons e rest ih =>
    by_cases he : e.1 = k
    · subst he
      simp only [setJob, if_pos rfl]
      simp [registryKeys]
      tauto
    · simp only [setJob, if_neg he]
      simp [registryKeys] at ih ⊢
      tauto

theorem keys_setJob_nodup {reg : Registry} (k : JobId) (j : Job)
    (h : (registryKeys reg).Nodup) : (registryKeys (setJob reg k j)).Nodup := by
  induction reg with
  | nil => simp [setJob, registryKeys]
  | cons e rest ih =>
    simp only [registryKeys, List.map_cons, List.nodup_cons] at h
    by_cases he : e.1 = k
    · subst he
      simp only [setJob, if_pos rfl]
      simpa [registryKeys, List.nodup_cons] using h
    · simp only [setJob, if_neg he]
      simp only [registryKeys, List.map_cons, List.nodup_cons]
      constructor
      · intro hc
        rcases (keys_setJob_mem rest k e.1 j).mp hc with h1 | h1
        · exact h.1 h1
        · exact he h1
      · exact ih h.2

theorem mem_keys_exists {reg : Registry} {k : JobId}
    (h : k ∈ reg.map (fun e => e.1)) : ∃ j, (k, j) ∈ reg := by
  rcases List.mem_map.mp h with ⟨e, he, hk⟩
  exact ⟨e.2, by obtain ⟨k', j'⟩ := e; cases hk; exact he⟩

theorem keys_buildRegistry_mem (start : Registry) (entries : List (JobId × Job)) (k : JobId) :
    k ∈ registryKeys (buildRegistry start entries) ↔
      k ∈ registryKeys start ∨ k ∈ entries.map (fun e => e.1) := by
  induction entries generalizing start with
  | nil => simp [buildRegistry]
  | cons e rest ih =>
    have hstep : buildRegistry start (e :: rest) = buildRegistry (setJob start e.1 e.2) rest := rfl
    rw [hstep, ih, List.map_cons, List.mem_cons]
    constructor
    · rintro (h1 | h1)
      · rcases (keys_setJob_mem start e.1 k e.2).mp h1 with h2 | h2
        · exact Or.inl h2
        · exact Or.inr (Or.inl h2)
      · exact Or.inr (Or.inr h1)
    · rintro (h1 | h1 | h1)
      · exact Or.inl ((keys_setJob_mem start e.1 k e.2).mpr (Or.inl h1))
      · exact Or.inl ((keys_setJob_mem start e.1 k e.2).mpr (Or.inr h1))
      · exact Or.inr h1

theorem keys_buildRegistry_nodup {start : Registry} (entries : List (JobId × Job))
    (h : (registryKeys start).Nodup) :
    (registryKeys (buildRegistry start entries)).Nodup := by
  induction entries generalizing start with
  | nil => exact h
  | cons e rest ih => exact ih (keys_setJob_nodup e.1 e.2 h)

theorem mem_buildRegistry_sub {start : Registry} {entries : List (JobId × Job)}
    {x : JobId × Job} (h : x ∈ buildRegistry start entries) :
    x ∈ start ∨ x ∈ entries := by
  induction entries generalizing start with
  | nil => exact Or.inl h
  | cons e rest ih =>
    rcases ih h with h1 | h1
    · rcases mem_setJob h1 with h2 | h2
      · exact Or.inl h2
      · exact Or.inr (by simp [h2])
    · exact Or.inr (List.mem_cons_of_mem _ h1)

theorem lookupJob_buildRegistry_not_mem {start : Registry} {entries : List (JobId × Job)}
    {k : JobId} (h : k ∉ entries.map (fun e => e.1)) :
    lookupJob (buildRegistry start entries) k = lookupJob start k := by
  induction entries generalizing start with
  | nil => rfl
  | cons e rest ih =>
    have hne : k ≠ e.1 := by
      intro hc
      exact h (by simp [hc])
    have hrest : k ∉ rest.map (fun e => e.1) := by
      intro hc
      exact h (by simp [hc])
    calc lookupJob (buildRegistry (setJob start e.1 e.2) rest) k
        = lookupJob (setJob start e.1 e.2) k := ih hrest
      _ = lookupJob start k := lookupJob_setJob_ne start e.1 k e.2 hne

theorem lookupJob_buildRegistry_of_mem {start : Registry} {entries : List (JobId × Job)}
    {k : JobId} {j : Job} (hmem : (k, j) ∈ entries)
    (agree : ∀ j' j'', (k, j') ∈ entries → (k, j'') ∈ entries → j' = j'') :
    lookupJob (buildRegistry start entries) k = some j := by
  induction entries generalizing start with
  | nil => cases hmem
  | cons e rest ih =>
    by_cases hk : k ∈ rest.map (fun e => e.1)
    · rcases mem_keys_exists hk with ⟨j'', hj''⟩
      have hj : j'' = j :=
        agree j'' j (List.mem_cons_of_mem _ hj'') hmem
      subst hj
      exact ih hj'' (fun a b ha hb =>
        agree a b (List.mem_cons_of_mem _ ha) (List.mem_cons_of_mem _ hb))
    · rcases List.mem_cons.mp hmem with h1 | h1
      · subst h1
        have hstep : buildRegistry start ((k, j) :: rest) =
            buildRegistry (setJob start k j) rest := rfl
        rw [hstep, lookupJob_buildRegistry_not_mem hk]
        exact lookupJob_setJob_self start k j
      · exact absurd (List.mem_map.mpr ⟨(k, j), h1, rfl⟩) hk

/-! ## Characterizing the entries created by a reconciliation pass -/

theorem mem_jobsForUser {userId : String} {p : UserPref} {k : JobId} {j : Job} :
    (k, j) ∈ jobsForUser userId p ↔
      ∃ t ti, t ∈ p.times ∧ findTime t = some ti ∧
        k = earlyJobId userId t ∧ j = mkEarlyJob userId p ti := by
  unfold jobsForUser
  by_cases he : p.times.isEmpty
  · have ht : p.times = [] := List.isEmpty_iff.mp he
    rw [if_pos he]
    simp [ht]
  · rw [if_neg he]
    simp only [List.mem_filterMap]
    constructor
    · rintro ⟨t, ht, hf⟩
      cases hft : findTime t with
      | none => rw [hft] at hf; cases hf
      | some ti =>
        rw [hft] at hf
        simp only [Option.some.injEq, Prod.mk.injEq] at hf
        exact ⟨t, ti, ht, hft, hf.1.symm, hf.2.symm⟩
    · rintro ⟨t, ti, ht, hft, hk, hj⟩
      exact ⟨t, ht, by rw [hft, hk, hj]⟩

theorem mem_registryEntries {prefs : PrefMap} {k : JobId} {j : Job} :
    (k, j) ∈ registryEntries prefs ↔
      ∃ u p, (u, p) ∈ prefs ∧ (k, j) ∈ jobsForUser u p := by
  induction prefs with
  | nil => simp [registryEntries]
  | cons e rest ih =>
    obtain ⟨u0, p0⟩ := e
    simp only [registryEntries, List.mem_append, ih, List.mem_cons]
    constructor
    · rintro (h1 | ⟨u, p, hup, hj⟩)
      · exact ⟨u0, p0, Or.inl rfl, h1⟩
      · exact ⟨u, p, Or.inr hup, hj⟩
    · rintro ⟨u, p, hup | hup, hj⟩
      · rw [Prod.mk.injEq] at hup
        obtain ⟨h1, h2⟩ := hup
        subst h1
        subst h2
        exact Or.inl hj
      · exact Or.inr ⟨u, p, hup, hj⟩

theorem userId_of_mem_jobsForUser {userId : String} {p : UserPref} {k : JobId} {j : Job}
    (h : (k, j) ∈ jobsForUser userId p) : k.userId = userId := by
  rcases mem_jobsForUser.mp h with ⟨t, ti, _, _, hk, _⟩
  rw [hk]
  rfl

/-! ## Association-list lemmas for the preference mapping -/

theorem lookupKey_cons {β : Type} (e : String × β) (l : List (String × β)) (u : String) :
    lookupKey (e :: l) u = if e.1 = u then some e.2 else lookupKey l u := by
  by_cases h : e.1 = u <;> simp [lookupKey, List.find?_cons, h]

theorem lookupKey_mem {β : Type} {l : List (String × β)} {u : String} {b : β}
    (h : lookupKey l u = some b) : (u, b) ∈ l := by
  induction l with
  | nil => simp [lookupKey] at h
  | cons e rest ih =>
    obtain ⟨u0, b0⟩ := e
    rw [lookupKey_cons] at h
    by_cases he : u0 = u
    · simp only [he, if_pos] at h
      simp only [Option.some.injEq] at h
      subst he
      subst h
      exact List.mem_cons_self _ _
    · simp only [if_neg he] at h
      exact List.mem_cons_of_mem _ (ih h)

theorem lookupKey_eq_some_of_mem {β : Type} {l : List (String × β)} {u : String} {b : β}
    (hnd : (l.map (fun e => e.1)).Nodup) (h : (u, b) ∈ l) : lookupKey l u = some b := by
  induction l with
  | nil => cases h
  | cons e rest ih =>
    obtain ⟨u0, b0⟩ := e
    simp only [List.map_cons, List.nodup_cons] at hnd
    rcases List.mem_cons.mp h with h1 | h1
    · rw [Prod.mk.injEq] at h1
      obtain ⟨h2, h3⟩ := h1
      subst h2
      subst h3
      rw [lookupKey_cons, if_pos rfl]
    · have hne : u0 ≠ u := by
        intro hc
        subst hc
        exact hnd.1 (List.mem_map.mpr ⟨(u0, b), h1, rfl⟩)
      rw [lookupKey_cons, if_neg hne]
      exact ih hnd.2 h1

theorem assoc_val_unique {β : Type} {l : List (String × β)} {u : String} {b b' : β}
    (hnd : (l.map (fun e => e.1)).Nodup) (h : (u, b) ∈ l) (h' : (u, b') ∈ l) : b = b' := by
  have e1 := lookupKey_eq_some_of_mem hnd h
  have e2 := lookupKey_eq_some_of_mem hnd h'
  rw [e1] at e2
  exact Option.some.injEq _ _ ▸ e2.symm ▸ rfl

theorem lookupKey_map_val {β : Type} (g : String → β → β) (l : List (String × β)) (u : String) :
    lookupKey (l.map (fun e => (e.1, g e.1 e.2))) u = (lookupKey l u).map (g u) := by
  induction l with
  | nil => rfl
  | cons e rest ih =>
    by_cases h : e.1 = u
    · subst h
      simp [lookupKey, List.find?_cons]
    · simp [lookupKey, List.find?_cons, h] at ih ⊢
      exact ih

theorem keys_map_val {β : Type} (g : String → β → β) (l : List (String × β)) :
    (l.map (fun e => (e.1, g e.1 e.2))).map (fun e => e.1) = l.map (fun e => e.1) := by
  induction l with
  | nil => rfl
  | cons e rest ih => simp [ih]

/-! ## The state after a `setupNotifications` pass -/

theorem registryEntries_agree {prefs : PrefMap}
    (hnd : (prefs.map (fun e => e.1)).Nodup) {k : JobId} {j j' : Job}
    (h : (k, j) ∈ registryEntries prefs) (h' : (k, j') ∈ registryEntries prefs) : j = j' := by
  rcases mem_registryEntries.mp h with ⟨u, p, hup, hj⟩
  rcases mem_registryEntries.mp h' with ⟨u', p', hup', hj'⟩
  rcases mem_jobsForUser.mp hj with ⟨t, ti, ht, hft, hk, hjv⟩
  rcases mem_jobsForUser.mp hj' with ⟨t', ti', ht', hft', hk', hjv'⟩
  rw [hk] at hk'
  simp only [earlyJobId, JobId.mk.injEq] at hk'
  obtain ⟨hu, htv, -⟩ := hk'
  subst hu
  subst htv
  rw [hft] at hft'
  simp only [Option.some.injEq] at hft'
  subst hft'
  have hp : p = p' := assoc_val_unique hnd hup hup'
  subst hp
  rw [hjv, hjv']

theorem setup_activeJobs_eq (st : SysState) :
    (setupNotifications st).activeJobs = buildRegistry [] (registryEntries st.prefs) := rfl

theorem mem_setup_activeJobs {st : SysState}
    (hnd : (st.prefs.map (fun e => e.1)).Nodup) {k : JobId} {j : Job} :
    (k, j) ∈ (setupNotifications st).activeJobs ↔ (k, j) ∈ registryEntries st.prefs := by
  rw [setup_activeJobs_eq]
  constructor
  · intro h
    rcases mem_buildRegistry_sub h with h1 | h1
    · cases h1
    · exact h1
  · intro h
    exact lookupJob_mem
      (lookupJob_buildRegistry_of_mem h (fun a b ha hb => registryEntries_agree hnd ha hb))

theorem setup_keys_nodup (st : SysState) :
    (registryKeys (setupNotifications st).activeJobs).Nodup := by
  rw [setup_activeJobs_eq]
  exact keys_buildRegistry_nodup _ (by simp [registryKeys])

theorem setup_lookupJob {st : SysState}
    (hnd : (st.prefs.map (fun e => e.1)).Nodup) (u t kind : String) (j : Job) :
    lookupJob (setupNotifications st).activeJobs ⟨u, t, kind⟩ = some j ↔
      ∃ p ti, lookupKey st.prefs u = some p ∧ t ∈ p.times ∧ findTime t = some ti ∧
        kind = "early" ∧ j = mkEarlyJob u p ti := by
  constructor
  · intro h
    have hm := (mem_setup_activeJobs hnd).mp (lookupJob_mem h)
    rcases mem_registryEntries.mp hm with ⟨u', p, hup, hj⟩
    rcases mem_jobsForUser.mp hj with ⟨t', ti, ht, hft, hk, hjv⟩
    simp only [earlyJobId, JobId.mk.injEq] at hk
    obtain ⟨hu, htv, hkind⟩ := hk
    subst hu
    subst htv
    exact ⟨p, ti, lookupKey_eq_some_of_mem hnd hup, ht, hft, hkind, hjv⟩
  · rintro ⟨p, ti, hup, ht, hft, hkind, hjv⟩
    subst hkind
    have hm : (earlyJobId u t, j) ∈ registryEntries st.prefs :=
      mem_registryEntries.mpr ⟨u, p, lookupKey_mem hup,
        mem_jobsForUser.mpr ⟨t, ti, ht, hft, rfl, hjv⟩⟩
    rw [setup_activeJobs_eq]
    exact lookupJob_buildRegistry_of_mem hm (fun a b ha hb => registryEntries_agree hnd ha hb)

theorem mem_liveKeys {reg : Registry} {k : JobId} :
    k ∈ liveKeys reg ↔ ∃ j, (k, j) ∈ reg ∧ j.running := by
  simp only [liveKeys, List.mem_map, List.mem_filter]
  constructor
  · rintro ⟨e, ⟨he, hr⟩, hk⟩
    exact ⟨e.2, by obtain ⟨k', j'⟩ := e; cases hk; exact he, hr⟩
  · rintro ⟨j, hj, hr⟩
    exact ⟨(k, j), ⟨hj, hr⟩, rfl⟩

theorem setup_liveKeys {st : SysState}
    (hnd : (st.prefs.map (fun e => e.1)).Nodup) (k : JobId) :
    k ∈ liveKeys (setupNotifications st).activeJobs ↔
      ∃ p, lookupKey st.prefs k.userId = some p ∧ k.timeValue ∈ p.times ∧
        validTime k.timeValue ∧ p.paused = false ∧ k.kind = "early" := by
  rw [mem_liveKeys]
  constructor
  · rintro ⟨j, hj, hr⟩
    have hm := (mem_setup_activeJobs hnd).mp hj
    rcases mem_registryEntries.mp hm with ⟨u, p, hup, hj2⟩
    rcases mem_jobsForUser.mp hj2 with ⟨t, ti, ht, hft, hk, hjv⟩
    subst hk
    refine ⟨p, lookupKey_eq_some_of_mem hnd hup, ht, ?_, ?_, rfl⟩
    · simp [validTime, earlyJobId, hft]
    · subst hjv
      simp only [mkEarlyJob] at hr
      simpa using hr
  · rintro ⟨p, hup, ht, hv, hpa, hkind⟩
    simp only [validTime, Option.isSome_iff_exists] at hv
    obtain ⟨ti, hft⟩ := hv
    refine ⟨mkEarlyJob k.userId p ti, ?_, by simp [mkEarlyJob, hpa]⟩
    apply (mem_setup_activeJobs hnd).mpr
    apply mem_registryEntries.mpr
    refine ⟨k.userId, p, lookupKey_mem hup, mem_jobsForUser.mpr ⟨k.timeValue, ti, ht, hft, ?_, rfl⟩⟩
    obtain ⟨ku, kt, kk⟩ := k
    simp only [earlyJobId]
    simp only at hkind
    rw [hkind]

theorem setup_prefs_lookup (st : SysState) (u : String) :
    lookupKey (setupNotifications st).prefs u = (lookupKey st.prefs u).map (rebuildUser u) := by
  have : (setupNotifications st).prefs = rebuiltPrefs st.prefs := rfl
  rw [this]
  exact lookupKey_map_val rebuildUser st.prefs u

theorem setup_prefs_keys (st : SysState) :
    (setupNotifications st).prefs.map (fun e => e.1) = st.prefs.map (fun e => e.1) := by
  exact keys_map_val rebuildUser st.prefs

/-! ## Idempotence infrastructure -/

theorem jobsForUser_scheduledJobs (u : String) (p : UserPref) (ids : List JobId) :
    jobsForUser u { p with scheduledJobs := ids } = jobsForUser u p := by
  simp [jobsForUser, mkEarlyJob, userTz]

theorem jobsForUser_rebuildUser (u u' : String) (p : UserPref) :
    jobsForUser u (rebuildUser u' p) = jobsForUser u p := by
  unfold rebuildUser
  by_cases he : p.times.isEmpty
  · rw [if_pos he]
  · rw [if_neg he, jobsForUser_scheduledJobs]

theorem registryEntries_rebuiltPrefs (prefs : PrefMap) :
    registryEntries (rebuiltPrefs prefs) = registryEntries prefs := by
  induction prefs with
  | nil => rfl
  | cons e rest ih =>
    show jobsForUser e.1 (rebuildUser e.1 e.2) ++ registryEntries (rebuiltPrefs rest)
        = jobsForUser e.1 e.2 ++ registryEntries rest
    rw [jobsForUser_rebuildUser, ih]

theorem rebuildUser_idem (u : String) (p : UserPref) :
    rebuildUser u (rebuildUser u p) = rebuildUser u p := by
  unfold rebuildUser
  by_cases he : p.times.isEmpty
  · simp [he]
  · simp only [if_neg he]
    have he2 : ({ p with scheduledJobs :=
        (jobsForUser u p).map (fun kj => kj.1) } : UserPref).times.isEmpty = false := by
      simpa using he
    simp [he2, jobsForUser_scheduledJobs]

theorem rebuiltPrefs_idem (prefs : PrefMap) :
    rebuiltPrefs (rebuiltPrefs prefs) = rebuiltPrefs prefs := by
  unfold rebuiltPrefs
  rw [List.map_map]
  apply List.map_congr_left
  intro e _
  simp [Function.comp, rebuildUser_idem]

theorem setupNotifications_idem (st : SysState) :
    setupNotifications (setupNotifications st) = setupNotifications st := by
  unfold setupNotifications
  simp only [clearAllActiveJobs]
  congr 1
  · rw [registryEntries_rebuiltPrefs]
  · rw [rebuiltPrefs_idem]

/-! ## Counting entries -/

theorem filter_singleton_of_unique {α : Type} {l : List α} {p : α → Bool} {a : α}
    (hnd : l.Nodup) (ha : a ∈ l) (hp : p a = true) (hu : ∀ x ∈ l, p x = true → x = a) :
    l.filter p = [a] := by
  induction l with
  | nil => cases ha
  | cons b rest ih =>
    simp only [List.nodup_cons] at hnd
    rcases List.mem_cons.mp ha with h1 | h1
    · subst h1
      rw [List.filter_cons, if_pos hp]
      have : rest.filter p = [] := by
        rw [List.filter_eq_nil_iff]
        intro x hx hpx
        exact hnd.1 ((hu x (List.mem_cons_of_mem _ hx) hpx) ▸ hx)
      rw [this]
    · have hb : p b = false := by
        by_contra hc
        have := hu b (List.mem_cons_self _ _) (by simpa using hc)
        subst this
        exact hnd.1 h1
      rw [List.filter_cons, if_neg (by simp [hb])]
      exact ih hnd.2 h1 (fun x hx hpx => hu x (List.mem_cons_of_mem _ hx) hpx)

theorem countKey_eq (reg : Registry) (k : JobId) :
    countKey reg k = ((registryKeys reg).filter (fun k' => decide (k' = k))).length := by
  unfold countKey registryKeys
  induction reg with
  | nil => rfl
  | cons e rest ih =>
    by_cases he : e.1 = k <;> simp [List.filter_cons, he, ih]

theorem countUser_eq (reg : Registry) (u : String) :
    countUser reg u = ((registryKeys reg).filter (fun k => k.userId == u)).length := by
  unfold countUser registryKeys
  induction reg with
  | nil => rfl
  | cons e rest ih =>
    by_cases he : e.1.userId = u <;> simp [List.filter_cons, he, ih]

theorem countKey_eq_one {reg : Registry} {k : JobId}
    (hnd : (registryKeys reg).Nodup) (hk : k ∈ registryKeys reg) : countKey reg k = 1 := by
  rw [countKey_eq,
    filter_singleton_of_unique hnd hk (by simp) (fun x _ hx => by simpa using hx)]
  rfl

theorem setup_keys_mem {st : SysState}
    (hnd : (st.prefs.map (fun e => e.1)).Nodup) (k : JobId) :
    k ∈ registryKeys (setupNotifications st).activeJobs ↔
      ∃ p, lookupKey st.prefs k.userId = some p ∧ k.timeValue ∈ p.times ∧
        validTime k.timeValue ∧ k.kind = "early" := by
  constructor
  · intro h
    rcases mem_keys_exists h with ⟨j, hj⟩
    have hm := (mem_setup_activeJobs hnd).mp hj
    rcases mem_registryEntries.mp hm with ⟨u, p, hup, hj2⟩
    rcases mem_jobsForUser.mp hj2 with ⟨t, ti, ht, hft, hk, -⟩
    subst hk
    exact ⟨p, lookupKey_eq_some_of_mem hnd hup, ht, by simp [validTime, earlyJobId, hft], rfl⟩
  · rintro ⟨p, hup, ht, hv, hkind⟩
    simp only [validTime, Option.isSome_iff_exists] at hv
    obtain ⟨ti, hft⟩ := hv
    have hm : (k, mkEarlyJob k.userId p ti) ∈ registryEntries st.prefs := by
      apply mem_registryEntries.mpr
      refine ⟨k.userId, p, lookupKey_mem hup,
        mem_jobsForUser.mpr ⟨k.timeValue, ti, ht, hft, ?_, rfl⟩⟩
      obtain ⟨ku, kt, kk⟩ := k
      simp only [earlyJobId]
      simp only at hkind
      rw [hkind]
    exact List.mem_map.mpr ⟨(k, mkEarlyJob k.userId p ti),
      (mem_setup_activeJobs hnd).mpr hm, rfl⟩

/-! ## Claim theorems -/

/-- A concrete one-user preference state used to instantiate claim
theorems with discharged hypotheses. -/
def demoPref : UserPref :=
  { times := ["18:00"]
    autoApply := false
    paused := false
    scheduledJobs := []
    lastSetupMessageId := none
    timezone := some "UTC"
    tempTimes := none }

/-- A concrete engine state holding `demoPref` and an empty registry. -/
def demoState : SysState :=
  { activeJobs := [], prefs := [("u1", demoPref)] }

/-- C1: after `setupNotifications()` returns, the set of live (running)
timers in the job registry is exactly the set of keys
`(userId, slot, "early")` for every slot (a member of the sixteen-entry
catalog, per the spec's glossary) in that user's `times` list with the
user not paused, computed from the preferences read by the single
`loadUserPreferences()` of the call; and the pass unconditionally clears
every existing registry entry first, so its result does not depend on the
registry it started from. -/
theorem c1_setup_live_timers_exact (st : SysState)
    (hnd : (st.prefs.map (fun e => e.1)).Nodup) :
    (∀ reg : Registry,
      setupNotifications { activeJobs := reg, prefs := st.prefs } = setupNotifications st) ∧
    ∀ k : JobId, k ∈ liveKeys (setupNotifications st).activeJobs ↔
      ∃ p, lookupKey st.prefs k.userId = some p ∧ k.timeValue ∈ p.times ∧
        validTime k.timeValue ∧ p.paused = false ∧ k.kind = "early" :=
  ⟨fun _ => rfl, fun k => setup_liveKeys hnd k⟩

/-- Witness for C1 at the concrete state `demoState`. -/
theorem c1_setup_live_timers_exact_witness :
    (demoState.prefs.map (fun e => e.1)).Nodup ∧
    ((∀ reg : Registry,
      setupNotifications { activeJobs := reg, prefs := demoState.prefs } =
        setupNotifications demoState) ∧
    ∀ k : JobId, k ∈ liveKeys (setupNotifications demoState).activeJobs ↔
      ∃ p, lookupKey demoState.prefs k.userId = some p ∧ k.timeValue ∈ p.times ∧
        validTime k.timeValue ∧ p.paused = false ∧ k.kind = "early") :=
  ⟨by simp [demoState], c1_setup_live_timers_exact demoState (by simp [demoState])⟩

/-- C2: with no intervening preference change, a second (and third)
`setupNotifications()` pass reproduces exactly the state of the first —
the registered key set never grows — and for a user with exactly one
selected catalog slot the registry holds exactly one entry for that user
after each of three consecutive passes. -/
theorem c2_setup_idempotent (st : SysState)
    (hnd : (st.prefs.map (fun e => e.1)).Nodup)
    (u : String) (p : UserPref) (t : String)
    (hu : lookupKey st.prefs u = some p) (ht : p.times = [t]) (hv : validTime t = true) :
    setupNotifications (setupNotifications st) = setupNotifications st ∧
    countUser (setupNotifications st).activeJobs u = 1 ∧
    countUser (setupNotifications (setupNotifications st)).activeJobs u = 1 ∧
    countUser (setupNotifications (setupNotifications (setupNotifications st))).activeJobs u = 1 := by
  have hidem := setupNotifications_idem st
  have hk : earlyJobId u t ∈ registryKeys (setupNotifications st).activeJobs := by
    apply (setup_keys_mem hnd _).mpr
    exact ⟨p, hu, by rw [ht]; exact List.mem_singleton.mpr rfl, hv, rfl⟩
  have h1 : countUser (setupNotifications st).activeJobs u = 1 := by
    rw [countUser_eq]
    rw [filter_singleton_of_unique (setup_keys_nodup st) hk (by simp [earlyJobId]) ?uniq]
    case uniq =>
      intro x hx hpx
      rcases (setup_keys_mem hnd x).mp hx with ⟨p', hup', ht', hv', hk'⟩
      have hxu : x.userId = u := by simpa using hpx
      rw [hxu, hu] at hup'
      simp only [Option.some.injEq] at hup'
      subst hup'
      rw [ht] at ht'
      have hxt : x.timeValue = t := List.mem_singleton.mp ht'
      obtain ⟨xu, xt, xk⟩ := x
      simp only at hxu hxt hk'
      rw [earlyJobId, hxu, hxt, hk']
    rfl
  exact ⟨hidem, h1, by rw [hidem]; exact h1, by rw [hidem, hidem]; exact h1⟩

/-- Witness for C2 at the concrete state `demoState`. -/
theorem c2_setup_idempotent_witness :
    ((demoState.prefs.map (fun e => e.1)).Nodup ∧
      lookupKey demoState.prefs "u1" = some demoPref ∧
      demoPref.times = ["18:00"] ∧ validTime "18:00" = true) ∧
    (setupNotifications (setupNotifications demoState) = setupNotifications demoState ∧
      countUser (setupNotifications demoState).activeJobs "u1" = 1 ∧
      countUser (setupNotifications (setupNotifications demoState)).activeJobs "u1" = 1 ∧
      countUser (setupNotifications (setupNotifications (setupNotifications demoState))).activeJobs
        "u1" = 1) :=
  ⟨⟨by simp [demoState], by simp [demoState, lookupKey], rfl, by decide⟩,
    c2_setup_idempotent demoState (by simp [demoState]) "u1" demoPref "18:00"
      (by simp [demoState, lookupKey]) rfl (by decide)⟩

/-- C3: after any `setupNotifications()` pass the registry holds exactly
one entry under the key `(userId, slotValue, "early")` for every catalog
slot a user selected, and at every intermediate point of the rebuild
(after any prefix of the job registrations, starting from the cleared
registry) no key has more than one entry. -/
theorem c3_one_entry_per_key (st : SysState)
    (hnd : (st.prefs.map (fun e => e.1)).Nodup)
    (u : String) (p : UserPref) (t : String)
    (hu : lookupKey st.prefs u = some p) (ht : t ∈ p.times) (hv : validTime t = true) :
    countKey (setupNotifications st).activeJobs (earlyJobId u t) = 1 ∧
    ∀ n : Nat,
      (registryKeys (buildRegistry [] ((registryEntries st.prefs).take n))).Nodup := by
  constructor
  · exact countKey_eq_one (setup_keys_nodup st)
      ((setup_keys_mem hnd _).mpr ⟨p, hu, ht, hv, rfl⟩)
  · intro n
    exact keys_buildRegistry_nodup _ (by simp [registryKeys])

/-- Witness for C3 at the concrete state `demoState`. -/
theorem c3_one_entry_per_key_witness :
    ((demoState.prefs.map (fun e => e.1)).Nodup ∧
      lookupKey demoState.prefs "u1" = some demoPref ∧
      "18:00" ∈ demoPref.times ∧ validTime "18:00" = true) ∧
    (countKey (setupNotifications demoState).activeJobs (earlyJobId "u1" "18:00") = 1 ∧
      ∀ n : Nat,
        (registryKeys (buildRegistry [] ((registryEntries demoState.prefs).take n))).Nodup) :=
  ⟨⟨by simp [demoState], by simp [demoState, lookupKey], by simp [demoPref], by decide⟩,
    c3_one_entry_per_key demoState (by simp [demoState]) "u1" demoPref "18:00"
      (by simp [demoState, lookupKey]) (by simp [demoPref]) (by decide)⟩

theorem rebuildUser_paused (u : String) (p : UserPref) :
    (rebuildUser u p).paused = p.paused := by
  unfold rebuildUser
  split <;> rfl

/-- C4: for a paused user, `setupNotifications()` still creates a registry
entry for every selected catalog slot, immediately stopped rather than
skipped; and `sendNotificationToUser`, which reloads the preferences
fresh, never delivers while the reloaded record is paused. -/
theorem c4_paused_stopped_not_skipped (st : SysState)
    (hnd : (st.prefs.map (fun e => e.1)).Nodup)
    (u : String) (p : UserPref)
    (hu : lookupKey st.prefs u = some p) (hp : p.paused = true) :
    (∀ t ∈ p.times, validTime t = true →
      ∃ j, lookupJob (setupNotifications st).activeJobs (earlyJobId u t) = some j ∧
        j.running = false) ∧
    ∀ label : String,
      sendNotificationToUser (setupNotifications st).prefs u label = none := by
  constructor
  · intro t ht hv
    simp only [validTime, Option.isSome_iff_exists] at hv
    obtain ⟨ti, hft⟩ := hv
    refine ⟨mkEarlyJob u p ti, ?_, by simp [mkEarlyJob, hp]⟩
    exact (setup_lookupJob hnd u t "early" _).mpr ⟨p, ti, hu, ht, hft, rfl, rfl⟩
  · intro label
    have hl : lookupKey (setupNotifications st).prefs u = some (rebuildUser u p) := by
      rw [setup_prefs_lookup, hu]
      rfl
    simp [sendNotificationToUser, hl, rebuildUser_paused, hp]

/-- A paused variant of `demoPref`. -/
def pausedPref : UserPref :=
  { demoPref with paused := true }

/-- A concrete engine state holding a paused user. -/
def pausedState : SysState :=
  { activeJobs := [], prefs := [("u1", pausedPref)] }

/-- Witness for C4 at the concrete state `pausedState`. -/
theorem c4_paused_stopped_not_skipped_witness :
    ((pausedState.prefs.map (fun e => e.1)).Nodup ∧
      lookupKey pausedState.prefs "u1" = some pausedPref ∧ pausedPref.paused = true) ∧
    ((∀ t ∈ pausedPref.times, validTime t = true →
      ∃ j, lookupJob (setupNotifications pausedState).activeJobs (earlyJobId "u1" t) = some j ∧
        j.running = false) ∧
    ∀ label : String,
      sendNotificationToUser (setupNotifications pausedState).prefs "u1" label = none) :=
  ⟨⟨by simp [pausedState], by simp [pausedState, lookupKey], rfl⟩,
    c4_paused_stopped_not_skipped pausedState (by simp [pausedState]) "u1" pausedPref
      (by simp [pausedState, lookupKey]) rfl⟩

/-- A user who had the 18:00 slot while on UTC and has switched their
timezone to America/New_York. -/
def nyPref : UserPref :=
  { times := ["18:00"]
    autoApply := false
    paused := false
    scheduledJobs := []
    lastSetupMessageId := none
    timezone := some "America/New_York"
    tempTimes := none }

/-- Engine state after the timezone switch, about to reconcile. -/
def nyState : SysState :=
  { activeJobs := [], prefs := [("u1", nyPref)] }

/-- C5 counterexample: after `setupNotifications()` for the
America/New_York user, the 18:00 slot's registered job does **not** fire
at the New York wall-clock minute corresponding to 13:00 New York (the
absolute instant of 18:00 UTC; trigger reading 12:55), but at 17:55 New
York wall-clock time — the canonical cron fields re-read in the new
timezone, i.e. a different absolute instant. -/
theorem c5_counterexample :
    lookupJob (setupNotifications nyState).activeJobs (earlyJobId "u1" "18:00") =
      some (mkEarlyJob "u1" nyPref ⟨"18:00", "18:00", "55 17 * * *"⟩) ∧
    firesAtWallClock (mkEarlyJob "u1" nyPref ⟨"18:00", "18:00", "55 17 * * *"⟩)
      "America/New_York" 12 55 = false ∧
    firesAtWallClock (mkEarlyJob "u1" nyPref ⟨"18:00", "18:00", "55 17 * * *"⟩)
      "America/New_York" 13 0 = false ∧
    firesAtWallClock (mkEarlyJob "u1" nyPref ⟨"18:00", "18:00", "55 17 * * *"⟩)
      "America/New_York" 17 55 = true := by
  refine ⟨by decide, by decide, by decide, by decide⟩

/-- C5 amended: after `setupNotifications()`, a non-paused user's job for
a selected catalog slot is registered with the slot's canonical cron
fields evaluated in the user's current timezone: it fires exactly when
the wall clock of that timezone reads the canonical hour:minute (17:55
America/New_York for the 18:00 slot after a switch from UTC), not at the
wall-clock minute corresponding to the slot's previous absolute instant. -/
theorem c5_amended_canonical_wallclock (st : SysState)
    (hnd : (st.prefs.map (fun e => e.1)).Nodup)
    (u : String) (p : UserPref) (t : String) (ti : TimeInfo) (m h : Nat)
    (hu : lookupKey st.prefs u = some p) (ht : t ∈ p.times) (hft : findTime t = some ti)
    (hp : p.paused = false) (hmh : cronMinuteHour ti.earlyWarningCron = some (m, h)) :
    lookupJob (setupNotifications st).activeJobs (earlyJobId u t) =
      some (mkEarlyJob u p ti) ∧
    ∀ (tz : String) (hh mm : Nat),
      firesAtWallClock (mkEarlyJob u p ti) tz hh mm = true ↔
        tz = userTz p ∧ hh = h ∧ mm = m := by
  constructor
  · exact (setup_lookupJob hnd u t "early" _).mpr ⟨p, ti, hu, ht, hft, rfl, rfl⟩
  · intro tz hh mm
    simp only [firesAtWallClock, mkEarlyJob, hp, hmh, Bool.not_false, Bool.true_and,
      Bool.and_eq_true, beq_iff_eq, Option.some.injEq, Prod.mk.injEq]
    constructor
    · rintro ⟨h1, h2, h3⟩
      exact ⟨h1.symm, h3.symm, h2.symm⟩
    · rintro ⟨h1, h2, h3⟩
      exact ⟨h1.symm, h3.symm, h2.symm⟩

/-- Witness for the amended C5 at the concrete state `nyState`. -/
theorem c5_amended_canonical_wallclock_witness :
    ((nyState.prefs.map (fun e => e.1)).Nodup ∧
      lookupKey nyState.prefs "u1" = some nyPref ∧
      "18:00" ∈ nyPref.times ∧
      findTime "18:00" = some ⟨"18:00", "18:00", "55 17 * * *"⟩ ∧
      nyPref.paused = false ∧
      cronMinuteHour "55 17 * * *" = some (55, 17)) ∧
    (lookupJob (setupNotifications nyState).activeJobs (earlyJobId "u1" "18:00") =
      some (mkEarlyJob "u1" nyPref ⟨"18:00", "18:00", "55 17 * * *"⟩) ∧
    ∀ (tz : String) (hh mm : Nat),
      firesAtWallClock (mkEarlyJob "u1" nyPref ⟨"18:00", "18:00", "55 17 * * *"⟩) tz hh mm =
          true ↔
        tz = userTz nyPref ∧ hh = 17 ∧ mm = 55) :=
  ⟨⟨by decide, by decide, by decide, by decide, by decide, by decide⟩,
    c5_amended_canonical_wallclock nyState (by simp [nyState]) "u1" nyPref "18:00"
      ⟨"18:00", "18:00", "55 17 * * *"⟩ 55 17
      (by decide) (by decide) (by decide) (by decide) (by decide)⟩

theorem mem_userKeys {u : String} {reg : Registry} {k : JobId} :
    k ∈ userKeys u reg ↔ k ∈ registryKeys reg ∧ k.userId = u := by
  simp [userKeys, List.mem_filter]

/-- A user with no selected times but a stale persisted `scheduledJobs`
cache. -/
def stalePref : UserPref :=
  { times := []
    autoApply := false
    paused := false
    scheduledJobs := [earlyJobId "u1" "18:00"]
    lastSetupMessageId := none
    timezone := some "UTC"
    tempTimes := none }

/-- Engine state holding only the stale-cache user. -/
def staleState : SysState :=
  { activeJobs := [], prefs := [("u1", stalePref)] }

/-- C6 counterexample: a user whose `times` list is empty is skipped by
`setupNotifications()` (`if (!prefs.times || !prefs.times.length) return`),
so their persisted `scheduledJobs` cache is **not** rebuilt: after the
pass it still lists a job id although the user has no registry keys at
all — refuting "rebuilt on every reconciliation for every user, including
users whose selected times list is empty". -/
theorem c6_counterexample :
    lookupKey (setupNotifications staleState).prefs "u1" = some stalePref ∧
    stalePref.scheduledJobs = [earlyJobId "u1" "18:00"] ∧
    userKeys "u1" (setupNotifications staleState).activeJobs = [] := by
  refine ⟨by decide, rfl, by decide⟩

/-- C6 amended: after every `setupNotifications()` pass, the persisted
`scheduledJobs` cache of every user **with a non-empty times list** equals
the set of registry keys currently representing that user's timers; a
user with an empty times list is skipped and their record — including any
stale `scheduledJobs` — is left unchanged. -/
theorem c6_amended_cache_rebuilt (st : SysState)
    (hnd : (st.prefs.map (fun e => e.1)).Nodup)
    (u : String) (p : UserPref) (hu : lookupKey st.prefs u = some p) :
    (p.times = [] → lookupKey (setupNotifications st).prefs u = some p) ∧
    (p.times ≠ [] →
      lookupKey (setupNotifications st).prefs u = some (rebuildUser u p) ∧
      ∀ k : JobId, k ∈ (rebuildUser u p).scheduledJobs ↔
        k ∈ userKeys u (setupNotifications st).activeJobs) := by
  have hl : lookupKey (setupNotifications st).prefs u = some (rebuildUser u p) := by
    rw [setup_prefs_lookup, hu]
    rfl
  constructor
  · intro he
    rw [hl]
    have : rebuildUser u p = p := by simp [rebuildUser, he]
    rw [this]
  · intro hne
    refine ⟨hl, fun k => ?_⟩
    have hsj : (rebuildUser u p).scheduledJobs = (jobsForUser u p).map (fun kj => kj.1) := by
      have : p.times.isEmpty = false := by
        simpa [List.isEmpty_iff] using hne
      simp [rebuildUser, this]
    rw [hsj, mem_userKeys]
    constructor
    · intro hkm
      obtain ⟨j, hj⟩ := mem_keys_exists hkm
      refine ⟨List.mem_map.mpr ⟨(k, j), ?_, rfl⟩, userId_of_mem_jobsForUser hj⟩
      exact (mem_setup_activeJobs hnd).mpr
        (mem_registryEntries.mpr ⟨u, p, lookupKey_mem hu, hj⟩)
    · rintro ⟨hkm, hku⟩
      obtain ⟨j, hj⟩ := mem_keys_exists hkm
      have hm := (mem_setup_activeJobs hnd).mp hj
      rcases mem_registryEntries.mp hm with ⟨u', p', hup', hj'⟩
      have hu2 : k.userId = u' := userId_of_mem_jobsForUser hj'
      have hueq : u' = u := by rw [← hu2, hku]
      subst hueq
      have hpeq : p' = p := assoc_val_unique hnd hup' (lookupKey_mem hu)
      subst hpeq
      exact List.mem_map.mpr ⟨(k, j), hj', rfl⟩

/-- Witness for the amended C6 at the concrete state `demoState`. -/
theorem c6_amended_cache_rebuilt_witness :
    ((demoState.prefs.map (fun e => e.1)).Nodup ∧
      lookupKey demoState.prefs "u1" = some demoPref) ∧
    ((demoPref.times = [] → lookupKey (setupNotifications demoState).prefs "u1" = some demoPref) ∧
    (demoPref.times ≠ [] →
      lookupKey (setupNotifications demoState).prefs "u1" = some (rebuildUser "u1" demoPref) ∧
      ∀ k : JobId, k ∈ (rebuildUser "u1" demoPref).scheduledJobs ↔
        k ∈ userKeys "u1" (setupNotifications demoState).activeJobs)) :=
  ⟨⟨by simp [demoState], by decide⟩,
    c6_amended_cache_rebuilt demoState (by simp [demoState]) "u1" demoPref (by decide)⟩

theorem applyAuto_lookup (prefs : PrefMap) (u : String) :
    lookupKey (applyAutoPreferences prefs) u = (lookupKey prefs u).map dailyResetUser :=
  lookupKey_map_val (fun _ b => dailyResetUser b) prefs u

/-- C7: the daily reset `applyAutoPreferences()` leaves a user with
`autoApply = true` and non-empty times untouched, and clears the times of
a user with `autoApply = false` and non-empty times while changing
nothing else in their record (in particular `paused` is preserved). -/
theorem c7_daily_reset (prefs : PrefMap) (u : String) (p : UserPref)
    (hu : lookupKey prefs u = some p) (hne : p.times ≠ []) :
    (p.autoApply = true → lookupKey (applyAutoPreferences prefs) u = some p) ∧
    (p.autoApply = false →
      lookupKey (applyAutoPreferences prefs) u = some { p with times := [] }) := by
  have hemp : p.times.isEmpty = false := by
    simpa [List.isEmpty_iff] using hne
  rw [applyAuto_lookup, hu]
  constructor
  · intro ha
    simp [dailyResetUser, ha, hemp]
  · intro ha
    simp [dailyResetUser, ha, hemp]

/-- Witness for C7 at the concrete mapping of `demoState` (its user has
`autoApply = false` and one selected time). -/
theorem c7_daily_reset_witness :
    (lookupKey demoState.prefs "u1" = some demoPref ∧ demoPref.times ≠ []) ∧
    ((demoPref.autoApply = true →
      lookupKey (applyAutoPreferences demoState.prefs) "u1" = some demoPref) ∧
    (demoPref.autoApply = false →
      lookupKey (applyAutoPreferences demoState.prefs) "u1" =
        some { demoPref with times := [] })) :=
  ⟨⟨by decide, by decide⟩,
    c7_daily_reset demoState.prefs "u1" demoPref (by decide) (by decide)⟩

/-! ## The stop command -/

theorem lookupJob_eq_none_iff {reg : Registry} {k : JobId} :
    lookupJob reg k = none ↔ ∀ e ∈ reg, e.1 ≠ k := by
  simp [lookupJob, List.find?_eq_none]

theorem stopLoop_ok {ids : List JobId} {reg : Registry}
    (hok : ∀ e ∈ reg, e.1 ∈ ids → e.2.cancelThrows = false) :
    stopLoop reg ids = Except.ok (reg.filter (fun e => decide (e.1 ∉ ids))) := by
  induction ids generalizing reg with
  | nil =>
    have hfull : reg.filter (fun e => decide (e.1 ∉ ([] : List JobId))) = reg :=
      List.filter_eq_self.mpr (by intro a _; simp)
    rw [hfull]
    rfl
  | cons i rest ih =>
    simp only [stopLoop]
    cases hl : lookupJob reg i with
    | none =>
      dsimp only
      have hni : ∀ e ∈ reg, e.1 ≠ i := lookupJob_eq_none_iff.mp hl
      rw [ih (fun e he hm => hok e he (List.mem_cons_of_mem _ hm))]
      congr 1
      apply List.filter_congr
      intro e he
      have hne := hni e he
      simp [List.mem_cons, hne]
    | some j =>
      dsimp only
      have hj : (i, j) ∈ reg := lookupJob_mem hl
      have hth : j.cancelThrows = false := hok (i, j) hj (List.mem_cons_self _ _)
      rw [show cancelRun j = Except.ok () from by simp [cancelRun, hth]]
      dsimp only
      rw [deleteJob]
      rw [ih (fun e he hm =>
        hok e (List.mem_of_mem_filter he) (List.mem_cons_of_mem _ hm))]
      congr 1
      rw [List.filter_filter]
      apply List.filter_congr
      intro e he
      by_cases h1 : e.1 = i <;> by_cases h2 : e.1 ∈ rest <;>
        simp [List.mem_cons, h1, h2]

theorem lookupKey_setPref (prefs : PrefMap) (u u' : String) (q : UserPref) :
    lookupKey (setPref prefs u q) u' =
      (lookupKey prefs u').map (fun v => if u' == u then q else v) :=
  lookupKey_map_val (fun k v => if k == u then q else v) prefs u'

/-- The record the stop command persists for user record `p`. -/
def stoppedRecord (p : UserPref) : UserPref :=
  { p with
    times := []
    autoApply := false
    paused := false
    scheduledJobs := [] }

/-- C8: for a user with an existing record whose registry entries are all
listed in their `scheduledJobs` cache (the invariant `setupNotifications`
establishes) and whose handles cancel without throwing, the stop command
succeeds, cancels and deletes every listed registry handle — leaving zero
registry entries for that user — and persists a record with empty times,
`autoApply = false` and `paused = false` (other fields untouched). -/
theorem c8_stop_clears_user (st : SysState) (u : String) (p : UserPref)
    (hu : lookupKey st.prefs u = some p)
    (hcov : ∀ k ∈ registryKeys st.activeJobs, k.userId = u → k ∈ p.scheduledJobs)
    (hok : ∀ e ∈ st.activeJobs, e.1 ∈ p.scheduledJobs → e.2.cancelThrows = false) :
    stopCommand st u = Except.ok
      { activeJobs := st.activeJobs.filter (fun e => decide (e.1 ∉ p.scheduledJobs))
        prefs := setPref st.prefs u (stoppedRecord p) } ∧
    userKeys u (st.activeJobs.filter (fun e => decide (e.1 ∉ p.scheduledJobs))) = [] ∧
    lookupKey (setPref st.prefs u (stoppedRecord p)) u = some (stoppedRecord p) := by
  refine ⟨?_, ?_, ?_⟩
  · unfold stopCommand
    rw [hu]
    dsimp only
    rw [stopLoop_ok hok]
    rfl
  · rw [show userKeys u (st.activeJobs.filter (fun e => decide (e.1 ∉ p.scheduledJobs))) =
        (registryKeys (st.activeJobs.filter (fun e => decide (e.1 ∉ p.scheduledJobs)))).filter
          (fun k => k.userId == u) from rfl]
    rw [List.filter_eq_nil_iff]
    intro k hk
    obtain ⟨j, hj⟩ := mem_keys_exists hk
    have hmem := List.mem_filter.mp hj
    intro hbeq
    have hku : k.userId = u := by simpa using hbeq
    have hin : k ∈ p.scheduledJobs :=
      hcov k (List.mem_map.mpr ⟨(k, j), hmem.1, rfl⟩) hku
    have hout : k ∉ p.scheduledJobs := by simpa using hmem.2
    exact hout hin
  · rw [lookupKey_setPref, hu]
    simp

/-- The job handle registered for `demoPref`'s single slot. -/
def stopDemoJob : Job :=
  mkEarlyJob "u1" demoPref ⟨"18:00", "18:00", "55 17 * * *"⟩

/-- `demoPref` with its `scheduledJobs` cache filled, as after a
reconciliation. -/
def stopDemoPref : UserPref :=
  { demoPref with scheduledJobs := [earlyJobId "u1" "18:00"] }

/-- A post-reconciliation state for the stop-command witness. -/
def stopDemoState : SysState :=
  { activeJobs := [(earlyJobId "u1" "18:00", stopDemoJob)]
    prefs := [("u1", stopDemoPref)] }

/-- Witness for C8 at the concrete state `stopDemoState`. -/
theorem c8_stop_clears_user_witness :
    (lookupKey stopDemoState.prefs "u1" = some stopDemoPref ∧
      (∀ k ∈ registryKeys stopDemoState.activeJobs,
        k.userId = "u1" → k ∈ stopDemoPref.scheduledJobs) ∧
      (∀ e ∈ stopDemoState.activeJobs,
        e.1 ∈ stopDemoPref.scheduledJobs → e.2.cancelThrows = false)) ∧
    (stopCommand stopDemoState "u1" = Except.ok
      { activeJobs := stopDemoState.activeJobs.filter
          (fun e => decide (e.1 ∉ stopDemoPref.scheduledJobs))
        prefs := setPref stopDemoState.prefs "u1" (stoppedRecord stopDemoPref) } ∧
    userKeys "u1" (stopDemoState.activeJobs.filter
        (fun e => decide (e.1 ∉ stopDemoPref.scheduledJobs))) = [] ∧
    lookupKey (setPref stopDemoState.prefs "u1" (stoppedRecord stopDemoPref)) "u1" =
      some (stoppedRecord stopDemoPref)) :=
  ⟨⟨by decide, by decide, by decide⟩,
    c8_stop_clears_user stopDemoState "u1" stopDemoPref (by decide) (by decide) (by decide)⟩

/-- C9: `clearAllActiveJobs()` is resilient to individual handle
failures: it is a total operation (no error escapes it — each
cancellation attempt is isolated in its own `try`/`catch`), it records
one outcome per registry handle in order (so a throwing handle never
prevents the remaining handles from being processed, its exception being
caught and logged as a `failed` outcome), and it always leaves the
registry empty. -/
theorem c9_clearAll_resilient (reg : Registry) :
    (clearAllActiveJobs reg).2 = [] ∧
    (clearAllActiveJobs reg).1.map (fun e => e.1) = reg.map (fun e => e.1) ∧
    ∀ e ∈ reg, e.2.cancelThrows = true →
      (e.1, CancelOutcome.failed) ∈ (clearAllActiveJobs reg).1 := by
  refine ⟨rfl, ?_, ?_⟩
  · simp [clearAllActiveJobs, List.map_map, Function.comp]
  · intro e he hthrow
    exact List.mem_map.mpr ⟨e, he, by simp [attemptCancel, hthrow]⟩

/-- C10: selecting times in the interactive menu only stages the chosen
set in `tempTimes` (persisted), leaving the committed `times`, every
other user's record, and the registry unchanged; and pressing an
auto-apply (commit) button with `tempTimes` absent or empty is rejected
with an error reply before any save, leaving state unchanged. -/
theorem c10_select_menu_stages_only (st : SysState) (u : String) (p : UserPref)
    (hu : lookupKey st.prefs u = some p) :
    (∀ sel : List String,
      (selectTimesHandler st u sel).activeJobs = st.activeJobs ∧
      lookupKey (selectTimesHandler st u sel).prefs u =
        some { p with tempTimes := some sel } ∧
      ∀ u' : String, u' ≠ u →
        lookupKey (selectTimesHandler st u sel).prefs u' = lookupKey st.prefs u') ∧
    ∀ b : Bool, (p.tempTimes = none ∨ p.tempTimes = some []) →
      autoApplyHandler st u b = (st, ButtonOutcome.rejected) := by
  constructor
  · intro sel
    have hdef : selectTimesHandler st u sel =
        { st with prefs := setPref st.prefs u { p with tempTimes := some sel } } := by
      unfold selectTimesHandler
      rw [hu]
    refine ⟨by rw [hdef], ?_, ?_⟩
    · rw [hdef]
      show lookupKey (setPref st.prefs u { p with tempTimes := some sel }) u = _
      rw [lookupKey_setPref, hu]
      simp
    · intro u' hne
      rw [hdef]
      show lookupKey (setPref st.prefs u { p with tempTimes := some sel }) u' = _
      rw [lookupKey_setPref]
      have : (u' == u) = false := by simpa using hne
      simp [this]
  · intro b hcase
    rcases hcase with hc | hc
    · unfold autoApplyHandler
      rw [hu]
      dsimp only [Option.getD]
      rw [hc]
    · unfold autoApplyHandler
      rw [hu]
      dsimp only [Option.getD]
      rw [hc]
      rfl

/-- Witness for C10 at the concrete state `demoState` (its user has no
staged `tempTimes`). -/
theorem c10_select_menu_stages_only_witness :
    lookupKey demoState.prefs "u1" = some demoPref ∧
    ((∀ sel : List String,
      (selectTimesHandler demoState "u1" sel).activeJobs = demoState.activeJobs ∧
      lookupKey (selectTimesHandler demoState "u1" sel).prefs "u1" =
        some { demoPref with tempTimes := some sel } ∧
      ∀ u' : String, u' ≠ "u1" →
        lookupKey (selectTimesHandler demoState "u1" sel).prefs u' =
          lookupKey demoState.prefs u') ∧
    ∀ b : Bool, (demoPref.tempTimes = none ∨ demoPref.tempTimes = some []) →
      autoApplyHandler demoState "u1" b = (demoState, ButtonOutcome.rejected)) :=
  ⟨by decide, c10_select_menu_stages_only demoState "u1" demoPref (by decide)⟩
